import Mathlib

/-!
Verification development for the iostat high-await analysis tool
(src/iostat_analysis/detailed_await_analysis.py).

The program text is shallowly embedded below.  Text is modelled as
List Char (Python str), floating point values as rationals (the inputs
of interest are finite decimal literals, which both float literals and
rationals represent; no claim here depends on rounding), and fallible
operations (file reads, list indexing that can raise) as Option/Except.
All definitions are executable structural recursions so that concrete
runs can be evaluated by the kernel.
-/

namespace IostatAwait

/-- Convert a string literal to the character-list representation used by
the model. -/
def str (s : String) : List Char := s.data

/-- Drop leading whitespace characters (helper for Python str.strip). -/
def dropWs : List Char → List Char
  | [] => []
  | c :: cs => if c.isWhitespace then dropWs cs else c :: cs

/-- Python str.strip with no arguments: remove leading and trailing
whitespace. -/
def pyStrip (s : List Char) : List Char :=
  dropWs ((dropWs s.reverse).reverse)

/-- Split a character list at every character satisfying p, keeping empty
pieces (the behaviour of Python str.split with an explicit separator). -/
def splitOnPred (p : Char → Bool) : List Char → List (List Char)
  | [] => [[]]
  | c :: cs =>
    if p c then [] :: splitOnPred p cs
    else
      match splitOnPred p cs with
      | [] => [[c]]
      | t :: ts => (c :: t) :: ts

/-- Python s.split(sep) for a one-character separator: splits at every
occurrence, keeping empty pieces. -/
def splitOnChar (sep : Char) (s : List Char) : List (List Char) :=
  splitOnPred (fun d => d == sep) s

/-- Python s.split() with no argument: split on whitespace runs and drop
empty pieces. -/
def pySplitWs (s : List Char) : List (List Char) :=
  (splitOnPred Char.isWhitespace s).filter (fun t => !t.isEmpty)

/-- Python str.isdigit: nonempty and every character a digit. -/
def pyIsDigit (s : List Char) : Bool :=
  !s.isEmpty && s.all Char.isDigit

/-- Python "|".join on a list of pieces. -/
def joinPipe : List (List Char) → List Char
  | [] => []
  | [s] => s
  | s :: rest => s ++ '|' :: joinPipe rest

/-- Python str.startswith: the first argument is the candidate prefix. -/
def startsWithStr : List Char → List Char → Bool
  | [], _ => true
  | _ :: _, [] => false
  | p :: ps, c :: cs => p == c && startsWithStr ps cs

/-- Membership in the regex character class [APM]. -/
def isAPM (c : Char) : Bool :=
  c == 'A' || c == 'P' || c == 'M'

/-- The timestamp test of line 30 of the source: re.match with pattern
"\d{2}/\d{2}/\d{4} \d{2}:\d{2}:\d{2} [APM]{2}".  re.match anchors at
the start only, so trailing characters are permitted. -/
def timestampMatch : List Char → Bool
  | a :: b :: s1 :: c :: d :: s2 :: e :: f :: g :: h :: w1 ::
      i :: j :: c1 :: k :: l :: c2 :: m :: n :: w2 :: p :: q :: _ =>
    a.isDigit && b.isDigit && s1 == '/' && c.isDigit && d.isDigit && s2 == '/' &&
    e.isDigit && f.isDigit && g.isDigit && h.isDigit && w1 == ' ' &&
    i.isDigit && j.isDigit && c1 == ':' && k.isDigit && l.isDigit && c2 == ':' &&
    m.isDigit && n.isDigit && w2 == ' ' && isAPM p && isAPM q
  | _ => false

/-- Lines 21-27 of the source: remove an injected line-number prefix
"<digits>|" when present, then strip surrounding whitespace. -/
def cleanLine (line : List Char) : List Char :=
  let ps := splitOnChar '|' line
  let c :=
    match ps with
    | p1 :: p2 :: rest => if pyIsDigit p1 then joinPipe (p2 :: rest) else line
    | _ => line
  pyStrip c

/-- Read an optional sign character, returning the sign and the rest. -/
def readSign : List Char → Int × List Char
  | '+' :: cs => (1, cs)
  | '-' :: cs => (-1, cs)
  | cs => (1, cs)

/-- Value of a digit string in base 10. -/
def digitsVal (ds : List Char) : Nat :=
  ds.foldl (fun n c => 10 * n + (c.toNat - 48)) 0

/-- Parse the optional exponent suffix of a float literal and apply it to
the mantissa, given as a signed numerator over a power-of-ten
denominator.  The arithmetic stays in Nat and Int and one mkRat builds
the value, so the whole parse evaluates inside the kernel. -/
def parseExp (sg : Int) (num den : Nat) : List Char → Option ℚ
  | [] => some (mkRat (sg * num) den)
  | e :: rest =>
    if e == 'e' || e == 'E' then
      let sr := readSign rest
      let ed := sr.2.takeWhile Char.isDigit
      let r2 := sr.2.dropWhile Char.isDigit
      if ed.isEmpty || !r2.isEmpty then none
      else if sr.1 = 1 then some (mkRat (sg * (num * 10 ^ digitsVal ed)) den)
      else some (mkRat (sg * num) (den * 10 ^ digitsVal ed))
    else none

/-- Model of the Python float conversion on a whitespace-free token:
optional sign, decimal digits with an optional point, optional exponent.
Returns none when the conversion would raise ValueError.  The special
spellings inf and nan have no rational counterpart and are treated as
unparseable; no claim in this development involves them. -/
def parseFloat (s : List Char) : Option ℚ :=
  let sr := readSign s
  let ip := sr.2.takeWhile Char.isDigit
  let r1 := sr.2.dropWhile Char.isDigit
  match r1 with
  | '.' :: r2 =>
    let fp := r2.takeWhile Char.isDigit
    let r3 := r2.dropWhile Char.isDigit
    if ip.isEmpty && fp.isEmpty then none
    else parseExp sr.1 (digitsVal (ip ++ fp)) (10 ^ fp.length) r3
  | r2 =>
    if ip.isEmpty then none
    else parseExp sr.1 (digitsVal ip) 1 r2

/-- One extracted latency observation: the dictionary built at lines
46-57 of the source. -/
structure Record where
  filename : List Char
  full_filepath : List Char
  line_number : Nat
  original_line : List Char
  timestamp : List Char
  device : List Char
  r_await : ℚ
  w_await : ℚ
  clean_line : List Char
  all_parts : List (List Char)
deriving DecidableEq, Inhabited, Repr

/-- Peak latency of a record: max of read and write await. -/
def peakOf (r : Record) : ℚ := max r.r_await r.w_await

/-- Lines 34-62 of the source: attempt to turn one cleaned non-timestamp
line into a record.  none models both the silent skips and the caught
ValueError. -/
def deviceRecord (filepath filename : List Char) (threshold : ℚ)
    (ts : List Char) (n : Nat) (orig clean : List Char) : Option Record :=
  if clean.isEmpty || startsWithStr (str "Device") clean
      || startsWithStr (str "avg-cpu") clean then
    none
  else
    let parts := pySplitWs clean
    if parts.length < 16 then none
    else if parts.headD [] = str "Linux" ∨ parts.headD [] = [] then none
    else
      match parseFloat (parts.getD 9 []), parseFloat (parts.getD 10 []) with
      | some rq, some wq =>
        if threshold < rq ∨ threshold < wq then
          some { filename := filename, full_filepath := filepath,
                 line_number := n, original_line := orig, timestamp := ts,
                 device := parts.headD [], r_await := rq, w_await := wq,
                 clean_line := clean, all_parts := parts }
        else none
      | _, _ => none

/-- Processing of a single line of the scan loop: returns the carried
timestamp after the line and the record the line produced, if any. -/
def lineStep (filepath filename : List Char) (threshold : ℚ)
    (ts : List Char) (n : Nat) (line : List Char) : List Char × Option Record :=
  let clean := cleanLine line
  if timestampMatch clean then (clean, none)
  else (ts, deviceRecord filepath filename threshold ts n (pyStrip line) clean)

/-- The scan loop of check_high_await_times, carrying the current
timestamp and the 1-based number of the next line. -/
def extractGo (filepath filename : List Char) (threshold : ℚ) :
    List Char → Nat → List (List Char) → List Record
  | _, _, [] => []
  | ts, n, line :: rest =>
    ((lineStep filepath filename threshold ts n line).2).toList ++
      extractGo filepath filename threshold
        (lineStep filepath filename threshold ts n line).1 (n + 1) rest

/-- check_high_await_times (lines 8-64 of the source) on the list of
lines of one readable file.  The carried timestamp starts empty and the
first line has number 1. -/
def check_high_await_times (filepath filename : List Char) (threshold : ℚ)
    (lines : List (List Char)) : List Record :=
  extractGo filepath filename threshold [] 1 lines

/-- The concatenation loop of main (lines 164-169): per-file extractor
outputs in file order.  Each file is given as (path, name, lines). -/
def allResults (threshold : ℚ)
    (files : List (List Char × List Char × List (List Char))) : List Record :=
  (files.map (fun f => check_high_await_times f.1 f.2.1 threshold f.2.2)).flatten

/-- The same loop when a file may be unreadable (content none): the open
call of line 10 raises and nothing catches it, so the whole run fails. -/
def processFiles (threshold : ℚ) :
    List (List Char × List Char × Option (List (List Char))) →
      Except Unit (List Record)
  | [] => .ok []
  | (_, _, none) :: _ => .error ()
  | (p, nm, some ls) :: rest =>
    (processFiles threshold rest).map
      (check_high_await_times p nm threshold ls ++ ·)

/-- Stable insertion of a record into a list sorted descending by peak:
the record passes elements with strictly greater peak and stops in front
of the first element whose peak is at most its own. -/
def insertDesc (x : Record) : List Record → List Record
  | [] => [x]
  | y :: ys => if peakOf x < peakOf y then y :: insertDesc x ys else x :: y :: ys

/-- The sort of line 176: list.sort(key=max(r_await, w_await),
reverse=True).  Python list.sort is documented stable, and a stable sort
by a total preorder is extensionally unique; insertion sort realises it. -/
def pySortDesc : List Record → List Record
  | [] => []
  | x :: xs => insertDesc x (pySortDesc xs)

/-- Severity filter of line 250. -/
def catastrophic (l : List Record) : List Record :=
  l.filter (fun r => decide (5000 ≤ peakOf r))

/-- Severity filter of line 251. -/
def critical (l : List Record) : List Record :=
  l.filter (fun r => decide (1000 ≤ peakOf r ∧ peakOf r < 5000))

/-- Severity filter of line 252. -/
def extreme (l : List Record) : List Record :=
  l.filter (fun r => decide (500 ≤ peakOf r ∧ peakOf r < 1000))

/-- Severity filter of line 253. -/
def very_high (l : List Record) : List Record :=
  l.filter (fun r => decide (250 ≤ peakOf r ∧ peakOf r < 500))

/-- Severity filter of line 254. -/
def severe (l : List Record) : List Record :=
  l.filter (fun r => decide (200 ≤ peakOf r ∧ peakOf r < 250))

/-- Severity filter of line 255. -/
def medium_high (l : List Record) : List Record :=
  l.filter (fun r => decide (100 ≤ peakOf r ∧ peakOf r < 200))

/-- Severity filter of line 256 (the Slow bucket). -/
def normal (t : ℚ) (l : List Record) : List Record :=
  l.filter (fun r => decide (t ≤ peakOf r ∧ peakOf r < 100))

/-- Number of severity buckets that claim a given peak value. -/
def bucketCount (t x : ℚ) : Nat :=
  (if 5000 ≤ x then 1 else 0) + (if 1000 ≤ x ∧ x < 5000 then 1 else 0) +
  (if 500 ≤ x ∧ x < 1000 then 1 else 0) + (if 250 ≤ x ∧ x < 500 then 1 else 0) +
  (if 200 ≤ x ∧ x < 250 then 1 else 0) + (if 100 ≤ x ∧ x < 200 then 1 else 0) +
  (if t ≤ x ∧ x < 100 then 1 else 0)

/-- Host extraction of lines 103 and 184: filename.split(sep)[1] where
sep is the dash; none models the IndexError raised when the split has
fewer than two pieces. -/
def hostOf (name : List Char) : Option (List Char) :=
  (splitOnChar '-' name).get? 1

/-- Append a record to the group of its host, creating the group at the
end on first sight (Python dict preserves insertion order). -/
def addToGroup (h : List Char) (r : Record) :
    List (List Char × List Record) → List (List Char × List Record)
  | [] => [(h, [r])]
  | (k, rs) :: rest =>
    if k = h then (k, rs ++ [r]) :: rest else (k, rs) :: addToGroup h r rest

/-- The grouping loop of lines 182-187 with its accumulated dict. -/
def groupGo (acc : List (List Char × List Record)) :
    List Record → Except Unit (List (List Char × List Record))
  | [] => .ok acc
  | r :: rest =>
    match hostOf r.filename with
    | none => .error ()
    | some h => groupGo (addToGroup h r acc) rest

/-- Group the sorted records by server; the uncaught IndexError of a
malformed filename is the error case. -/
def groupByServer (l : List Record) : Except Unit (List (List Char × List Record)) :=
  groupGo [] l

/-- Line 203: display_limit is args.limit when that is truthy (nonzero),
else the number of records. -/
def displayLimit (limit : Option Int) (n : Nat) : Int :=
  match limit with
  | some l => if l ≠ 0 then l else (n : Int)
  | none => (n : Int)

/-- Python slice l[:k] including its negative-index semantics. -/
def pySliceTo (k : Int) (l : List Record) : List Record :=
  if 0 ≤ k then l.take k.toNat else l.take (l.length - (-k).toNat)

/-- The truncated view of line 205: all_results[:display_limit]. -/
def topView (limit : Option Int) (l : List Record) : List Record :=
  pySliceTo (displayLimit limit l.length) l

/-- Last element of a list of texts, with a default for the empty list. -/
def lastD (d : List Char) : List (List Char) → List Char
  | [] => d
  | a :: l => lastD a l

/-- The cleaned text of the last timestamp line among the first i lines,
or the default d when there is none. -/
def lastTsBefore (d : List Char) (lines : List (List Char)) (i : Nat) : List Char :=
  lastD d (((lines.take i).map cleanLine).filter timestampMatch)

/-- Modelled from the wording of the spec (section 4.1): a timestamp line
matches the pattern MM/DD/YYYY HH:MM:SS followed by AM or PM, the whole
cleaned text being exactly that pattern. -/
def specTimestampMatch : List Char → Bool
  | [a, b, s1, c, d, s2, e, f, g, h, w1, i, j, c1, k, l, c2, m, n, w2, p, q] =>
    a.isDigit && b.isDigit && s1 == '/' && c.isDigit && d.isDigit && s2 == '/' &&
    e.isDigit && f.isDigit && g.isDigit && h.isDigit && w1 == ' ' &&
    i.isDigit && j.isDigit && c1 == ':' && k.isDigit && l.isDigit && c2 == ':' &&
    m.isDigit && n.isDigit && w2 == ' ' && (p == 'A' || p == 'P') && q == 'M'
  | _ => false

/-- The shape actually accepted by the timestamp test of line 30: the
fourteen digit positions and the three separators of the date-time part,
then any two characters from the class {A, P, M}, with arbitrary
trailing text. -/
def amendedTsPattern (s : List Char) : Prop :=
  ∃ (a b c d e f g h i j k l m n p q : Char) (rest : List Char),
    s = [a, b, '/', c, d, '/', e, f, g, h, ' ',
         i, j, ':', k, l, ':', m, n, ' ', p, q] ++ rest ∧
    (a.isDigit ∧ b.isDigit ∧ c.isDigit ∧ d.isDigit ∧ e.isDigit ∧ f.isDigit ∧
     g.isDigit ∧ h.isDigit ∧ i.isDigit ∧ j.isDigit ∧ k.isDigit ∧ l.isDigit ∧
     m.isDigit ∧ n.isDigit) ∧
    isAPM p ∧ isAPM q

/-! Extraction lemmas. -/

theorem deviceRecord_some {p nm : List Char} {t : ℚ} {ts : List Char} {n : Nat}
    {orig clean : List Char} {r : Record}
    (h : deviceRecord p nm t ts n orig clean = some r) :
    (t < r.r_await ∨ t < r.w_await) ∧ r.line_number = n ∧ r.timestamp = ts := by
  unfold deviceRecord at h
  dsimp only at h
  split at h
  · simp at h
  · split at h
    · simp at h
    · split at h
      · simp at h
      · split at h
        · split at h
          · rename_i hcond
            cases h
            exact ⟨hcond, rfl, rfl⟩
          · simp at h
        · simp at h

theorem lineStep_snd_some {p nm : List Char} {t : ℚ} {ts : List Char} {n : Nat}
    {line : List Char} {r : Record}
    (h : (lineStep p nm t ts n line).2 = some r) :
    (t < r.r_await ∨ t < r.w_await) ∧ r.line_number = n ∧ r.timestamp = ts := by
  unfold lineStep at h
  dsimp only at h
  split at h
  · simp at h
  · exact deviceRecord_some h

theorem mem_extractGo_peak {p nm : List Char} {t : ℚ} :
    ∀ {lines : List (List Char)} {ts : List Char} {n : Nat} {r : Record},
      r ∈ extractGo p nm t ts n lines → t < max r.r_await r.w_await := by
  intro lines
  induction lines with
  | nil => intro ts n r h; simp [extractGo] at h
  | cons line rest ih =>
    intro ts n r h
    rw [extractGo, List.mem_append] at h
    rcases h with h | h
    · have hsome : (lineStep p nm t ts n line).2 = some r := by
        cases hls : (lineStep p nm t ts n line).2 with
        | none => rw [hls] at h; simp [Option.toList] at h
        | some x => rw [hls] at h; simp [Option.toList] at h; rw [h]
      exact lt_max_iff.mpr (lineStep_snd_some hsome).1
    · exact ih h

theorem mem_extractGo_lineNumber {p nm : List Char} {t : ℚ} :
    ∀ {lines : List (List Char)} {ts : List Char} {n : Nat} {r : Record},
      r ∈ extractGo p nm t ts n lines → n ≤ r.line_number := by
  intro lines
  induction lines with
  | nil => intro ts n r h; simp [extractGo] at h
  | cons line rest ih =>
    intro ts n r h
    rw [extractGo, List.mem_append] at h
    rcases h with h | h
    · have hsome : (lineStep p nm t ts n line).2 = some r := by
        cases hls : (lineStep p nm t ts n line).2 with
        | none => rw [hls] at h; simp [Option.toList] at h
        | some x => rw [hls] at h; simp [Option.toList] at h; rw [h]
      exact le_of_eq (lineStep_snd_some hsome).2.1.symm
    · exact le_trans (Nat.le_succ n) (ih h)

theorem extractGo_timestamp {p nm : List Char} {t : ℚ} :
    ∀ {lines : List (List Char)} {ts : List Char} {n : Nat} {r : Record},
      r ∈ extractGo p nm t ts n lines →
      r.timestamp = lastTsBefore ts lines (r.line_number - n) := by
  intro lines
  induction lines with
  | nil => intro ts n r h; simp [extractGo] at h
  | cons line rest ih =>
    intro ts n r h
    rw [extractGo, List.mem_append] at h
    rcases h with h | h
    · have hsome : (lineStep p nm t ts n line).2 = some r := by
        cases hls : (lineStep p nm t ts n line).2 with
        | none => rw [hls] at h; simp [Option.toList] at h
        | some x => rw [hls] at h; simp [Option.toList] at h; rw [h]
      have h2 := lineStep_snd_some hsome
      rw [h2.2.2, h2.2.1]
      simp [lastTsBefore, lastD]
    · have hn : n + 1 ≤ r.line_number := mem_extractGo_lineNumber h
      have hk : r.line_number - n = (r.line_number - (n + 1)) + 1 := by omega
      rw [hk]
      unfold lastTsBefore
      rw [List.take_succ_cons, List.map_cons, List.filter_cons]
      by_cases hts : timestampMatch (cleanLine line) = true
      · have hstep : (lineStep p nm t ts n line).1 = cleanLine line := by
          unfold lineStep; dsimp only; rw [if_pos hts]
        rw [hstep] at h
        have h3 := ih h
        rw [if_pos hts]
        simp only [lastD]
        simpa [lastTsBefore] using h3
      · have hstep : (lineStep p nm t ts n line).1 = ts := by
          unfold lineStep; dsimp only; rw [if_neg hts]
        rw [hstep] at h
        have h3 := ih h
        rw [if_neg hts]
        simpa [lastTsBefore] using h3

/-! Sorting lemmas. -/

theorem mem_insertDesc {y x : Record} :
    ∀ {l : List Record}, y ∈ insertDesc x l ↔ y = x ∨ y ∈ l := by
  intro l
  induction l with
  | nil => simp [insertDesc]
  | cons z zs ih =>
    unfold insertDesc
    by_cases hc : peakOf x < peakOf z
    · rw [if_pos hc]
      simp only [List.mem_cons, ih]
      tauto
    · rw [if_neg hc]
      simp only [List.mem_cons]

theorem sorted_insertDesc {x : Record} :
    ∀ {l : List Record},
      List.Pairwise (fun a b => peakOf b ≤ peakOf a) l →
      List.Pairwise (fun a b => peakOf b ≤ peakOf a) (insertDesc x l) := by
  intro l
  induction l with
  | nil => intro _; simp [insertDesc]
  | cons z zs ih =>
    intro h
    rw [List.pairwise_cons] at h
    unfold insertDesc
    by_cases hc : peakOf x < peakOf z
    · rw [if_pos hc]
      rw [List.pairwise_cons]
      constructor
      · intro b hb
        rcases mem_insertDesc.mp hb with rfl | hb
        · exact le_of_lt hc
        · exact h.1 b hb
      · exact ih h.2
    · rw [if_neg hc]
      rw [List.pairwise_cons]
      constructor
      · intro b hb
        rcases List.mem_cons.mp hb with rfl | hb
        · exact not_lt.mp hc
        · exact le_trans (h.1 b hb) (not_lt.mp hc)
      · rw [List.pairwise_cons]
        exact h

theorem sorted_pySortDesc :
    ∀ (l : List Record),
      List.Pairwise (fun a b => peakOf b ≤ peakOf a) (pySortDesc l) := by
  intro l
  induction l with
  | nil => simp [pySortDesc]
  | cons x xs ih => exact sorted_insertDesc ih

theorem mem_pySortDesc {y : Record} :
    ∀ {l : List Record}, y ∈ pySortDesc l ↔ y ∈ l := by
  intro l
  induction l with
  | nil => simp [pySortDesc]
  | cons x xs ih =>
    unfold pySortDesc
    rw [mem_insertDesc, ih, List.mem_cons]

theorem filter_insertDesc (v : ℚ) (x : Record) :
    ∀ (l : List Record),
      (insertDesc x l).filter (fun r => decide (peakOf r = v)) =
        if peakOf x = v then
          x :: l.filter (fun r => decide (peakOf r = v))
        else l.filter (fun r => decide (peakOf r = v)) := by
  intro l
  induction l with
  | nil =>
    by_cases hv : peakOf x = v
    · simp [insertDesc, hv]
    · simp [insertDesc, hv]
  | cons z zs ih =>
    unfold insertDesc
    by_cases hc : peakOf x < peakOf z
    · rw [if_pos hc, List.filter_cons, ih]
      by_cases hv : peakOf x = v
      · have hz : ¬(peakOf z = v) := by
          intro hzv
          rw [← hv] at hzv
          exact absurd hzv (ne_of_gt hc)
        simp [hv, hz, List.filter_cons]
      · by_cases hz : peakOf z = v
        · simp [hv, hz, List.filter_cons]
        · simp [hv, hz, List.filter_cons]
    · rw [if_neg hc]
      by_cases hv : peakOf x = v
      · simp [hv, List.filter_cons]
      · simp [hv, List.filter_cons]

theorem filter_pySortDesc (v : ℚ) :
    ∀ (l : List Record),
      (pySortDesc l).filter (fun r => decide (peakOf r = v)) =
        l.filter (fun r => decide (peakOf r = v)) := by
  intro l
  induction l with
  | nil => simp [pySortDesc]
  | cons x xs ih =>
    unfold pySortDesc
    rw [filter_insertDesc, ih, List.filter_cons]
    by_cases hv : peakOf x = v
    · simp [hv]
    · simp [hv]

/-! Severity bucket lemmas. -/

theorem bucket_pointwise (t x : ℚ) (h : t < x) : bucketCount t x = 1 := by
  unfold bucketCount
  rcases le_or_lt 5000 x with h1 | h1
  · rw [if_pos h1,
        if_neg (by rintro ⟨_, hb⟩; linarith),
        if_neg (by rintro ⟨_, hb⟩; linarith),
        if_neg (by rintro ⟨_, hb⟩; linarith),
        if_neg (by rintro ⟨_, hb⟩; linarith),
        if_neg (by rintro ⟨_, hb⟩; linarith),
        if_neg (by rintro ⟨_, hb⟩; linarith)]
  rcases le_or_lt 1000 x with h2 | h2
  · rw [if_neg (by intro hb; linarith), if_pos ⟨h2, h1⟩,
        if_neg (by rintro ⟨_, hb⟩; linarith),
        if_neg (by rintro ⟨_, hb⟩; linarith),
        if_neg (by rintro ⟨_, hb⟩; linarith),
        if_neg (by rintro ⟨_, hb⟩; linarith),
        if_neg (by rintro ⟨_, hb⟩; linarith)]
  rcases le_or_lt 500 x with h3 | h3
  · rw [if_neg (by intro hb; linarith),
        if_neg (by rintro ⟨hb, _⟩; linarith),
        if_pos ⟨h3, h2⟩,
        if_neg (by rintro ⟨_, hb⟩; linarith),
        if_neg (by rintro ⟨_, hb⟩; linarith),
        if_neg (by rintro ⟨_, hb⟩; linarith),
        if_neg (by rintro ⟨_, hb⟩; linarith)]
  rcases le_or_lt 250 x with h4 | h4
  · rw [if_neg (by intro hb; linarith),
        if_neg (by rintro ⟨hb, _⟩; linarith),
        if_neg (by rintro ⟨hb, _⟩; linarith),
        if_pos ⟨h4, h3⟩,
        if_neg (by rintro ⟨_, hb⟩; linarith),
        if_neg (by rintro ⟨_, hb⟩; linarith),
        if_neg (by rintro ⟨_, hb⟩; linarith)]
  rcases le_or_lt 200 x with h5 | h5
  · rw [if_neg (by intro hb; linarith),
        if_neg (by rintro ⟨hb, _⟩; linarith),
        if_neg (by rintro ⟨hb, _⟩; linarith),
        if_neg (by rintro ⟨hb, _⟩; linarith),
        if_pos ⟨h5, h4⟩,
        if_neg (by rintro ⟨_, hb⟩; linarith),
        if_neg (by rintro ⟨_, hb⟩; linarith)]
  rcases le_or_lt 100 x with h6 | h6
  · rw [if_neg (by intro hb; linarith),
        if_neg (by rintro ⟨hb, _⟩; linarith),
        if_neg (by rintro ⟨hb, _⟩; linarith),
        if_neg (by rintro ⟨hb, _⟩; linarith),
        if_neg (by rintro ⟨hb, _⟩; linarith),
        if_pos ⟨h6, h5⟩,
        if_neg (by rintro ⟨_, hb⟩; linarith)]
  rw [if_neg (by intro hb; linarith),
      if_neg (by rintro ⟨hb, _⟩; linarith),
      if_neg (by rintro ⟨hb, _⟩; linarith),
      if_neg (by rintro ⟨hb, _⟩; linarith),
      if_neg (by rintro ⟨hb, _⟩; linarith),
      if_neg (by rintro ⟨hb, _⟩; linarith),
      if_pos ⟨le_of_lt h, h6⟩]

theorem length_filter_cons (p : Record → Bool) (r : Record) (l : List Record) :
    ((r :: l).filter p).length = (if p r = true then 1 else 0) + (l.filter p).length := by
  rw [List.filter_cons]
  by_cases h : p r = true
  · rw [if_pos h, if_pos h, List.length_cons]
    omega
  · rw [if_neg h, if_neg h]
    omega

theorem buckets_sum (t : ℚ) :
    ∀ (l : List Record), (∀ r ∈ l, t < peakOf r) →
      (catastrophic l).length + (critical l).length + (extreme l).length +
        (very_high l).length + (severe l).length + (medium_high l).length +
        (normal t l).length = l.length := by
  intro l
  induction l with
  | nil =>
    intro _
    simp [catastrophic, critical, extreme, very_high, severe, medium_high, normal]
  | cons r l ih =>
    intro h
    have hr := h r (List.mem_cons_self r l)
    have hl := ih (fun x hx => h x (List.mem_cons_of_mem r hx))
    have hb := bucket_pointwise t (peakOf r) hr
    unfold bucketCount at hb
    unfold catastrophic critical extreme very_high severe medium_high normal
    rw [length_filter_cons, length_filter_cons, length_filter_cons, length_filter_cons,
        length_filter_cons, length_filter_cons, length_filter_cons, List.length_cons]
    unfold catastrophic critical extreme very_high severe medium_high normal at hl
    simp only [decide_eq_true_eq]
    omega

theorem mem_allResults_peak {t : ℚ}
    {files : List (List Char × List Char × List (List Char))} {r : Record}
    (h : r ∈ allResults t files) : t < peakOf r := by
  unfold allResults at h
  rw [List.mem_flatten] at h
  obtain ⟨s, hs, hr⟩ := h
  rw [List.mem_map] at hs
  obtain ⟨f, _, rfl⟩ := hs
  exact mem_extractGo_peak hr

/-! Threshold monotonicity lemmas. -/

theorem deviceRecord_mono {p nm ts orig clean : List Char} {n : Nat} {t1 t2 : ℚ}
    (h : t1 ≤ t2) :
    deviceRecord p nm t2 ts n orig clean =
      (deviceRecord p nm t1 ts n orig clean).bind
        (fun r => if t2 < max r.r_await r.w_await then some r else none) := by
  unfold deviceRecord
  split
  · rfl
  · dsimp only
    split
    · rfl
    · split
      · rfl
      · split
        · rename_i rq wq hr hw
          by_cases h2 : t2 < rq ∨ t2 < wq
          · have h1 : t1 < rq ∨ t1 < wq := by
              rcases h2 with h2 | h2
              · exact Or.inl (lt_of_le_of_lt h h2)
              · exact Or.inr (lt_of_le_of_lt h h2)
            rw [if_pos h2, if_pos h1]
            simp only [Option.some_bind]
            rw [if_pos (lt_max_iff.mpr h2)]
          · rw [if_neg h2]
            by_cases h1 : t1 < rq ∨ t1 < wq
            · rw [if_pos h1]
              simp only [Option.some_bind]
              rw [if_neg (fun hc => h2 (lt_max_iff.mp hc))]
            · rw [if_neg h1]
              rfl
        · rfl

theorem lineStep_fst_eq {p nm ts line : List Char} {n : Nat} {t1 t2 : ℚ} :
    (lineStep p nm t2 ts n line).1 = (lineStep p nm t1 ts n line).1 := by
  unfold lineStep
  dsimp only
  split
  · rfl
  · rfl

theorem lineStep_snd_mono {p nm ts line : List Char} {n : Nat} {t1 t2 : ℚ}
    (h : t1 ≤ t2) :
    ((lineStep p nm t2 ts n line).2).toList =
      ((lineStep p nm t1 ts n line).2).toList.filter
        (fun r => decide (t2 < max r.r_await r.w_await)) := by
  unfold lineStep
  dsimp only
  split
  · rfl
  · rw [deviceRecord_mono h]
    cases hdr : deviceRecord p nm t1 ts n (pyStrip line) (cleanLine line) with
    | none => rfl
    | some r =>
      by_cases hd : t2 < r.r_await ∨ t2 < r.w_await
      · simp only [Option.some_bind]
        rw [if_pos (lt_max_iff.mpr hd)]
        rcases hd with hd | hd
        · simp [Option.toList, hd]
        · simp [Option.toList, hd]
      · simp only [Option.some_bind]
        rw [if_neg (fun hc => hd (lt_max_iff.mp hc))]
        obtain ⟨hd1, hd2⟩ := not_or.mp hd
        simp [Option.toList, hd1, hd2]

theorem extractGo_mono {p nm : List Char} {t1 t2 : ℚ} (h : t1 ≤ t2) :
    ∀ (lines : List (List Char)) (ts : List Char) (n : Nat),
      extractGo p nm t2 ts n lines =
        (extractGo p nm t1 ts n lines).filter
          (fun r => decide (t2 < max r.r_await r.w_await)) := by
  intro lines
  induction lines with
  | nil => intro ts n; simp [extractGo]
  | cons line rest ih =>
    intro ts n
    rw [extractGo, extractGo, List.filter_append]
    rw [lineStep_snd_mono h, ih, lineStep_fst_eq]

/-! Host grouping lemmas. -/

/-- Invariant of the grouping dict: every record sits under its own second
dash-delimited token. -/
def GroupInv (g : List (List Char × List Record)) : Prop :=
  ∀ h rs, (h, rs) ∈ g → ∀ r ∈ rs, hostOf r.filename = some h

theorem groupInv_addToGroup {h : List Char} {r : Record}
    (hr : hostOf r.filename = some h) :
    ∀ {acc : List (List Char × List Record)},
      GroupInv acc → GroupInv (addToGroup h r acc) := by
  intro acc
  induction acc with
  | nil =>
    intro _ h2 rs2 hmem r2 hr2
    rw [addToGroup] at hmem
    have heq := List.mem_singleton.mp hmem
    injection heq with e1 e2
    rw [e2] at hr2
    rw [e1]
    rcases List.mem_singleton.mp hr2 with rfl
    exact hr
  | cons kv rest ih =>
    intro hinv h2 rs2 hmem r2 hr2
    rcases kv with ⟨k, rs⟩
    rw [addToGroup] at hmem
    by_cases hk : k = h
    · rw [if_pos hk] at hmem
      rcases List.mem_cons.mp hmem with heq | hmem2
      · injection heq with e1 e2
        rw [e2] at hr2
        rw [e1]
        rcases List.mem_append.mp hr2 with hin | hin
        · exact hinv k rs (List.mem_cons_self _ _) r2 hin
        · rcases List.mem_singleton.mp hin with rfl
          rw [hr, hk]
      · exact hinv h2 rs2 (List.mem_cons_of_mem _ hmem2) r2 hr2
    · rw [if_neg hk] at hmem
      rcases List.mem_cons.mp hmem with heq | hmem2
      · injection heq with e1 e2
        rw [e2] at hr2
        rw [e1]
        exact hinv k rs (List.mem_cons_self _ _) r2 hr2
      · have hrest : GroupInv rest := fun h3 rs3 hmem3 r3 hr3 =>
          hinv h3 rs3 (List.mem_cons_of_mem _ hmem3) r3 hr3
        exact ih hrest h2 rs2 hmem2 r2 hr2

theorem groupGo_ok_inv :
    ∀ {l : List Record} {acc : List (List Char × List Record)}
      {g : List (List Char × List Record)},
      GroupInv acc → groupGo acc l = .ok g → GroupInv g := by
  intro l
  induction l with
  | nil =>
    intro acc g hinv hok
    rw [groupGo] at hok
    cases hok
    exact hinv
  | cons r rest ih =>
    intro acc g hinv hok
    rw [groupGo] at hok
    cases hh : hostOf r.filename with
    | none => rw [hh] at hok; cases hok
    | some h =>
      rw [hh] at hok
      exact ih (groupInv_addToGroup hh hinv) hok

theorem groupGo_error {r : Record} (hb : hostOf r.filename = none) :
    ∀ {l : List Record}, r ∈ l →
      ∀ (acc : List (List Char × List Record)), groupGo acc l = .error () := by
  intro l
  induction l with
  | nil => intro hr; cases hr
  | cons x xs ih =>
    intro hr acc
    rcases List.mem_cons.mp hr with rfl | hmem
    · rw [groupGo, hb]
    · rw [groupGo]
      cases hx : hostOf x.filename with
      | none => rfl
      | some h => exact ih hmem _

/-! Unreadable file lemmas. -/

theorem processFiles_error {t : ℚ} :
    ∀ {files : List (List Char × List Char × Option (List (List Char)))},
      (∃ f ∈ files, f.2.2 = none) → processFiles t files = .error () := by
  intro files
  induction files with
  | nil => rintro ⟨f, hf, _⟩; cases hf
  | cons g rest ih =>
    rintro ⟨f, hf, hnone⟩
    rcases g with ⟨p, nm, c⟩
    cases c with
    | none => rfl
    | some ls =>
      rcases List.mem_cons.mp hf with rfl | hmem
      · simp at hnone
      · rw [processFiles, ih ⟨f, hmem, hnone⟩]
        rfl

theorem processFiles_ok {t : ℚ} :
    ∀ (files : List (List Char × List Char × List (List Char))),
      processFiles t (files.map (fun f => (f.1, f.2.1, some f.2.2))) =
        .ok (allResults t files) := by
  intro files
  induction files with
  | nil => rfl
  | cons g rest ih =>
    rcases g with ⟨p, nm, ls⟩
    simp only [List.map_cons]
    rw [processFiles, ih]
    rfl

/-! Timestamp pattern characterization. -/

theorem timestampMatch_iff (s : List Char) :
    timestampMatch s = true ↔ amendedTsPattern s := by
  constructor
  · intro h
    unfold timestampMatch at h
    split at h
    · rename_i a b s1 c d s2 e f g h8 w1 i9 j9 c1 k9 l9 c2 m9 n9 w2 p9 q9 rest
      simp only [Bool.and_eq_true, beq_iff_eq] at h
      refine ⟨a, b, c, d, e, f, g, h8, i9, j9, k9, l9, m9, n9, p9, q9, rest,
        ?_, ?_, ?_, ?_⟩
      · simp_all
      · simp_all
      · simp_all
      · simp_all
    · exact absurd h (by simp)
  · rintro ⟨a, b, c, d, e, f, g, h8, i9, j9, k9, l9, m9, n9, p9, q9, rest,
      heq, hdig, hp, hq⟩
    subst heq
    simp only [List.cons_append, List.nil_append]
    unfold timestampMatch
    obtain ⟨d1, d2, d3, d4, d5, d6, d7, d8, d9, d10, d11, d12, d13, d14⟩ := hdig
    simp_all

/-! Concrete fixtures used by the witnesses below. -/

/-- A well-formed timestamp line. -/
def sampleTsLine : List Char := str "07/01/2024 03:00:00 PM"

/-- A sixteen-token device line whose read await is 150.5 ms. -/
def sampleDeviceLine : List Char :=
  str "sda 1.0 2.0 3.0 4.0 0.0 0.0 0.0 0.0 150.5 12.0 0.5 4.0 4.0 0.1 20.0"

/-- A sixteen-token device line whose read await is 250.0 ms. -/
def sampleDeviceLine2 : List Char :=
  str "sdb 1.0 2.0 3.0 4.0 0.0 0.0 0.0 0.0 250.0 12.0 0.5 4.0 4.0 0.1 20.0"

/-- A malformed candidate row with only ten tokens. -/
def sampleShortLine : List Char := str "sda 1 2 3 4 5 6 7 8 9"

/-- A file name following the iostat-<host>-<suffix> convention. -/
def sampleFileName : List Char := str "iostat-10.0.0.1-a.output"

/-- A two-line file: one timestamp, one qualifying device line. -/
def sampleLines : List (List Char) := [sampleTsLine, sampleDeviceLine]

/-- A file with two qualifying device lines of different peaks. -/
def sampleLines2 : List (List Char) := [sampleDeviceLine, sampleDeviceLine2]

/-- A one-file input set. -/
def sampleFiles : List (List Char × List Char × List (List Char)) :=
  [(sampleFileName, sampleFileName, sampleLines)]

/-- The single record the extractor produces from sampleLines at
threshold 100. -/
def sampleRecord : Record :=
  (check_high_await_times sampleFileName sampleFileName 100 sampleLines).headD default

/-- A record whose filename has no dash, so host extraction raises. -/
def badRecord : Record :=
  { filename := str "abc", full_filepath := str "abc", line_number := 1,
    original_line := [], timestamp := [], device := str "sda",
    r_await := 200, w_await := 0, clean_line := [], all_parts := [] }

/-! Claim theorems. -/

/-- Claim C1: every record in the extractor output has peak await strictly above
the threshold; a line whose parsed read and write awaits are both at or
below the threshold never yields a record. -/
theorem extractor_peak_above_threshold
    (p nm : List Char) (t : ℚ) (lines : List (List Char)) (r : Record)
    (h : r ∈ check_high_await_times p nm t lines) :
    t < max r.r_await r.w_await :=
  mem_extractGo_peak h

/-- Witness for C1 on a concrete file at threshold 100. -/
theorem extractor_peak_above_threshold_witness :
    (100 : ℚ) < max sampleRecord.r_await sampleRecord.w_await :=
  extractor_peak_above_threshold sampleFileName sampleFileName 100 sampleLines
    sampleRecord (by decide)

/-- Claim C2: within one file each record carries the cleaned text of the last
timestamp line strictly before it, the empty string when none precedes
it; and every file of the batch is scanned from a fresh empty carried
timestamp, so the carry never crosses files. -/
theorem timestamp_carry_forward :
    (∀ (p nm : List Char) (t : ℚ) (lines : List (List Char)) (r : Record),
      r ∈ check_high_await_times p nm t lines →
      r.timestamp = lastTsBefore [] lines (r.line_number - 1)) ∧
    (∀ (t : ℚ) (files : List (List Char × List Char × List (List Char))),
      allResults t files =
        (files.map (fun f => extractGo f.1 f.2.1 t [] 1 f.2.2)).flatten) :=
  ⟨fun _ _ _ _ _ h => extractGo_timestamp h, fun _ _ => rfl⟩

/-- Witness for C2: the sample record carries the sample timestamp line. -/
theorem timestamp_carry_forward_witness :
    sampleRecord.timestamp = lastTsBefore [] sampleLines (sampleRecord.line_number - 1) :=
  timestamp_carry_forward.1 sampleFileName sampleFileName 100 sampleLines
    sampleRecord (by decide)

/-- Claim C3: the globally sorted sequence is descending in peak latency, and
the sort is stable: for every peak value the records carrying it appear
in the same relative order as in the concatenated per-file outputs. -/
theorem global_sort_desc_stable
    (t : ℚ) (files : List (List Char × List Char × List (List Char))) :
    List.Pairwise (fun a b => peakOf b ≤ peakOf a)
        (pySortDesc (allResults t files)) ∧
    ∀ v : ℚ,
      (pySortDesc (allResults t files)).filter (fun r => decide (peakOf r = v)) =
        (allResults t files).filter (fun r => decide (peakOf r = v)) :=
  ⟨sorted_pySortDesc _, fun v => filter_pySortDesc v _⟩

/-- Claim C4: the seven severity filters are a partition of the results: their
lengths sum to the total, each record is claimed by exactly one bucket,
and a non-empty Slow bucket forces the effective threshold below 100. -/
theorem severity_buckets_partition
    (t : ℚ) (files : List (List Char × List Char × List (List Char))) :
    ((catastrophic (pySortDesc (allResults t files))).length +
        (critical (pySortDesc (allResults t files))).length +
        (extreme (pySortDesc (allResults t files))).length +
        (very_high (pySortDesc (allResults t files))).length +
        (severe (pySortDesc (allResults t files))).length +
        (medium_high (pySortDesc (allResults t files))).length +
        (normal t (pySortDesc (allResults t files))).length =
      (pySortDesc (allResults t files)).length) ∧
    (∀ r ∈ pySortDesc (allResults t files), bucketCount t (peakOf r) = 1) ∧
    (normal t (pySortDesc (allResults t files)) ≠ [] → t < 100) := by
  have hpk : ∀ r ∈ pySortDesc (allResults t files), t < peakOf r := fun r hr =>
    mem_allResults_peak (mem_pySortDesc.mp hr)
  refine ⟨buckets_sum t _ hpk, fun r hr => bucket_pointwise t (peakOf r) (hpk r hr), ?_⟩
  intro hne
  obtain ⟨r, hr⟩ := List.exists_mem_of_ne_nil _ hne
  have hm := List.mem_filter.mp hr
  have h2 := of_decide_eq_true hm.2
  linarith [h2.1, h2.2]

/-- Witness for C4: the sample record lands in exactly one bucket. -/
theorem severity_buckets_partition_witness :
    bucketCount 100 (peakOf sampleRecord) = 1 :=
  (severity_buckets_partition 100 sampleFiles).2.1 sampleRecord (by decide)

/-- Counterexample for C5: a batch with one unreadable file and one readable
file holding a qualifying record fails as a whole instead of producing
the readable file's records. -/
theorem unreadable_file_counterexample :
    processFiles 100
        [(sampleFileName, sampleFileName, none),
         (sampleFileName, sampleFileName, some sampleLines)] = .error () ∧
    check_high_await_times sampleFileName sampleFileName 100 sampleLines ≠ [] :=
  ⟨rfl, by decide⟩

/-- Claim C5 as amended: the open call of the extractor has no handler, so one
unreadable file makes the whole per-file loop fail; only when every file
is readable does the loop return the concatenated records. -/
theorem unreadable_file_aborts_run :
    (∀ (t : ℚ) (files : List (List Char × List Char × Option (List (List Char))))
      (f : List Char × List Char × Option (List (List Char))),
      f ∈ files → f.2.2 = none → processFiles t files = .error ()) ∧
    (∀ (t : ℚ) (files : List (List Char × List Char × List (List Char))),
      processFiles t (files.map (fun f => (f.1, f.2.1, some f.2.2))) =
        .ok (allResults t files)) :=
  ⟨fun _ _ f hf hn => processFiles_error ⟨f, hf, hn⟩,
   fun _ files => processFiles_ok files⟩

/-- Witness for C5 at concrete inputs. -/
theorem unreadable_file_aborts_run_witness :
    processFiles 100 [(sampleFileName, sampleFileName, none)] = .error () ∧
    processFiles 100 (sampleFiles.map (fun f => (f.1, f.2.1, some f.2.2))) =
      .ok (allResults 100 sampleFiles) :=
  ⟨unreadable_file_aborts_run.1 100 [(sampleFileName, sampleFileName, none)]
      (sampleFileName, sampleFileName, none) (List.mem_cons_self _ _) rfl,
   unreadable_file_aborts_run.2 100 sampleFiles⟩

/-- Counterexample for C6: with one sorted record and display limit minus one
the truncated view is empty rather than the whole sequence, refuting the
claim that any limit at most zero means all records. -/
theorem display_limit_counterexample :
    topView (some (-1)) (pySortDesc (allResults 100 sampleFiles)) ≠
      pySortDesc (allResults 100 sampleFiles) := by decide

/-- Claim C6 as amended: an unset or zero limit shows everything, a positive
limit takes the first that many records, and a negative limit follows
the slice semantics and drops that many records from the end. -/
theorem display_limit_semantics (l : List Record) (k : Int) :
    topView none l = l ∧
    topView (some 0) l = l ∧
    (0 < k → topView (some k) l = l.take k.toNat) ∧
    (k < 0 → topView (some k) l = l.take (l.length - (-k).toNat)) := by
  refine ⟨?_, ?_, ?_, ?_⟩
  · simp [topView, displayLimit, pySliceTo]
  · simp [topView, displayLimit, pySliceTo]
  · intro hk
    unfold topView displayLimit pySliceTo
    dsimp only
    rw [if_pos (ne_of_gt hk), if_pos (le_of_lt hk)]
  · intro hk
    unfold topView displayLimit pySliceTo
    dsimp only
    rw [if_pos (ne_of_lt hk), if_neg (not_le.mpr hk)]

/-- Witness for C6 at a concrete one-record sequence. -/
theorem display_limit_semantics_witness :
    topView none (pySortDesc (allResults 100 sampleFiles)) =
        pySortDesc (allResults 100 sampleFiles) ∧
    topView (some 1) (pySortDesc (allResults 100 sampleFiles)) =
        (pySortDesc (allResults 100 sampleFiles)).take (1 : Int).toNat ∧
    topView (some (-1)) (pySortDesc (allResults 100 sampleFiles)) =
        (pySortDesc (allResults 100 sampleFiles)).take
          ((pySortDesc (allResults 100 sampleFiles)).length - (-(-1 : Int)).toNat) :=
  ⟨(display_limit_semantics _ 1).1,
   (display_limit_semantics _ 1).2.2.1 (by norm_num),
   (display_limit_semantics _ (-1)).2.2.2 (by norm_num)⟩

/-- Counterexample for C7: the code pattern accepts MM as the meridiem field
and accepts trailing text, both outside the claimed pattern of a
date-time followed by AM or PM. -/
theorem timestamp_pattern_counterexample :
    timestampMatch (cleanLine (str "01/02/2024 03:04:05 MM")) = true ∧
    specTimestampMatch (cleanLine (str "01/02/2024 03:04:05 MM")) = false ∧
    timestampMatch (cleanLine (str "01/02/2024 03:04:05 AM extra")) = true ∧
    specTimestampMatch (cleanLine (str "01/02/2024 03:04:05 AM extra")) = false := by
  refine ⟨by decide, by decide, by decide, by decide⟩

/-- Claim C7 as amended: a cleaned line is consumed as a timestamp line, with
the carried timestamp updated to it and no record produced, exactly when
it starts with the two-two-four digit date, the time, and any two
characters from the class A, P, M; trailing text is permitted, and a
non-matching line leaves the carried timestamp unchanged. -/
theorem timestamp_pattern_characterization
    (p nm : List Char) (t : ℚ) (ts : List Char) (n : Nat) (line : List Char) :
    (timestampMatch (cleanLine line) = true ↔ amendedTsPattern (cleanLine line)) ∧
    (timestampMatch (cleanLine line) = true →
      lineStep p nm t ts n line = (cleanLine line, none)) ∧
    (timestampMatch (cleanLine line) = false →
      (lineStep p nm t ts n line).1 = ts) := by
  refine ⟨timestampMatch_iff _, ?_, ?_⟩
  · intro h
    unfold lineStep
    dsimp only
    rw [if_pos h]
  · intro h
    unfold lineStep
    dsimp only
    rw [if_neg (by simp [h])]

/-- Witness for C7: the sample timestamp line is consumed as a timestamp
and the device line leaves the carried timestamp unchanged. -/
theorem timestamp_pattern_characterization_witness :
    lineStep sampleFileName sampleFileName 100 [] 1 sampleTsLine =
        (cleanLine sampleTsLine, none) ∧
    (lineStep sampleFileName sampleFileName 100 [] 1 sampleDeviceLine).1 = [] :=
  ⟨(timestamp_pattern_characterization sampleFileName sampleFileName 100 [] 1
      sampleTsLine).2.1 (by decide),
   (timestamp_pattern_characterization sampleFileName sampleFileName 100 [] 1
      sampleDeviceLine).2.2 (by decide)⟩

/-- Claim C8: grouping keys every record by the second dash-delimited token of
its filename, never a fallback value, and a filename with fewer than two
tokens makes the whole grouping step fail. -/
theorem host_grouping_second_token :
    (∀ (l : List Record) (r : Record), r ∈ l →
      (splitOnChar '-' r.filename).length < 2 → groupByServer l = .error ()) ∧
    (∀ (l : List Record) (g : List (List Char × List Record))
      (h : List Char) (rs : List Record) (r : Record),
      groupByServer l = .ok g → (h, rs) ∈ g → r ∈ rs →
      hostOf r.filename = some h) := by
  constructor
  · intro l r hr hlen
    have hb : hostOf r.filename = none := by
      unfold hostOf
      rw [List.get?_eq_none]
      omega
    exact groupGo_error hb hr []
  · intro l g h rs r hok hg hr
    exact groupGo_ok_inv (fun h3 rs3 hm => absurd hm (List.not_mem_nil _)) hok
      h rs hg r hr

/-- Witness for C8: a dash-free filename fails, and the sample record is
grouped under its second token. -/
theorem host_grouping_second_token_witness :
    groupByServer [badRecord] = .error () ∧
    hostOf sampleRecord.filename = some (str "10.0.0.1") :=
  ⟨host_grouping_second_token.1 [badRecord] badRecord (by decide) (by decide),
   host_grouping_second_token.2 [sampleRecord] [(str "10.0.0.1", [sampleRecord])]
      (str "10.0.0.1") [sampleRecord] sampleRecord rfl (by decide) (by decide)⟩

/-- Claim C9: a candidate line with fewer than sixteen tokens, or a non-numeric
token at index 9 or 10, produces no record, and the scan continues with
the remaining lines; the embedded extractor is total, so nothing
propagates past it. -/
theorem malformed_line_skipped
    (p nm : List Char) (t : ℚ) (ts : List Char) (n : Nat)
    (line : List Char) (rest : List (List Char))
    (h : (pySplitWs (cleanLine line)).length < 16 ∨
      parseFloat ((pySplitWs (cleanLine line)).getD 9 []) = none ∨
      parseFloat ((pySplitWs (cleanLine line)).getD 10 []) = none) :
    (lineStep p nm t ts n line).2 = none ∧
    extractGo p nm t ts n (line :: rest) =
      extractGo p nm t (lineStep p nm t ts n line).1 (n + 1) rest := by
  have hnone : (lineStep p nm t ts n line).2 = none := by
    unfold lineStep
    dsimp only
    split
    · rfl
    · unfold deviceRecord
      split
      · rfl
      · dsimp only
        by_cases h16 : (pySplitWs (cleanLine line)).length < 16
        · rw [if_pos h16]
        · rw [if_neg h16]
          rcases h with h | h | h
          · exact absurd h h16
          · split
            · rfl
            · split
              · rename_i rq wq h9 h10
                rw [h] at h9
                cases h9
              · rfl
          · split
            · rfl
            · split
              · rename_i rq wq h9 h10
                rw [h] at h10
                cases h10
              · rfl
  refine ⟨hnone, ?_⟩
  rw [extractGo, hnone]
  rfl

/-- Witness for C9: the ten-token row is skipped and the scan moves on. -/
theorem malformed_line_skipped_witness :
    (lineStep sampleFileName sampleFileName 100 [] 1 sampleShortLine).2 = none ∧
    extractGo sampleFileName sampleFileName 100 [] 1 [sampleShortLine] =
      extractGo sampleFileName sampleFileName 100
        (lineStep sampleFileName sampleFileName 100 [] 1 sampleShortLine).1 2 [] :=
  malformed_line_skipped sampleFileName sampleFileName 100 [] 1 sampleShortLine []
    (Or.inl (by decide))

/-- Claim C10: for thresholds t1 at most t2, extraction at t2 equals the
extraction at t1 filtered to peaks above t2: surviving records are
identical field for field and order is preserved. -/
theorem extractor_threshold_monotone
    (p nm : List Char) (lines : List (List Char)) (t1 t2 : ℚ) (h : t1 ≤ t2) :
    check_high_await_times p nm t2 lines =
      (check_high_await_times p nm t1 lines).filter
        (fun r => decide (t2 < max r.r_await r.w_await)) :=
  extractGo_mono h lines [] 1

/-- Witness for C10 at thresholds 100 and 200 on a two-record file. -/
theorem extractor_threshold_monotone_witness :
    check_high_await_times sampleFileName sampleFileName 200 sampleLines2 =
      (check_high_await_times sampleFileName sampleFileName 100 sampleLines2).filter
        (fun r => decide ((200 : ℚ) < max r.r_await r.w_await)) :=
  extractor_threshold_monotone sampleFileName sampleFileName sampleLines2 100 200
    (by norm_num)

end IostatAwait
